import Mathlib

/-!
Formal model of the strategy-statistics and correlation-discovery core of the
`ig-investment-analytics-st` dashboard (files `src/components/tab_main.py`,
`src/components/tab_corr.py`, `src/components/tab_data.py`), together with
theorems settling the specification claims about it.

Modelling conventions:
* pandas/numpy float values are modelled as rationals (`ℚ`); quantities whose
  computation involves an irrational square root are modelled in `ℝ`.
* A pandas `NaN` produced by a statistic of an empty (or too short) series is
  modelled with `Option` (`none` = NaN).  Python's convention that every
  comparison against NaN is false is modelled by matching on the `Option`.
* Python exceptions are modelled by `Except PyError`; an uncaught exception is
  an `Except.error` result.
* The float power operator `**` (used once, for the compound-interest return)
  is kept abstract: `calculate_strategy_stats` takes it as an explicit
  parameter `rpow : ℚ → ℚ → ℚ`.  No claim depends on its values.
-/

/-- Python exceptions that the modelled code can raise: `KeyError` (carrying the
missing key), `IndexError`, `TypeError` (e.g. `None - float`), `ValueError`
(carrying its message) and `ZeroDivisionError`. -/
inductive PyError where
  | keyError (key : String)
  | indexError
  | typeError
  | valueError (msg : String)
  | zeroDivisionError
deriving DecidableEq

/-- Lifts an optional value into `Except`, raising the given exception on
`none`; models a Python expression that raises when a value is absent. -/
def ofOpt (e : PyError) : Option α → Except PyError α
  | some a => .ok a
  | none => .error e

/-- Models `series.iloc[0]`: the first element, `IndexError` when empty. -/
def iloc0 : List α → Except PyError α
  | [] => .error .indexError
  | x :: _ => .ok x

/-- Models `series.iloc[-1]`: the last element, `IndexError` when empty. -/
def ilocLast (l : List α) : Except PyError α :=
  match l.getLast? with
  | some x => .ok x
  | none => .error .indexError

/-- Mean of a list of rationals as `sum / length` (the value pandas `mean()`
returns on a series without NaNs; on `[]` this rational expression is `0/0 = 0`
but every use below is guarded so the empty case is never observable). -/
def meanQ (l : List ℚ) : ℚ := l.sum / (l.length : ℚ)

/-- Sample variance with `ddof = 1` (the pandas default): sum of squared
deviations from the mean divided by `n - 1`. -/
def varQ (l : List ℚ) : ℚ :=
  (l.map (fun x => (x - meanQ l) ^ 2)).sum / ((l.length : ℚ) - 1)

/-- Models pandas `series.mean()`: `NaN` (here `none`) on an empty series. -/
def seriesMean (l : List ℚ) : Option ℚ :=
  if l = [] then none else some (meanQ l)

/-- Models pandas `series.std()` (ddof = 1): `NaN` (here `none`) for fewer than
two observations, otherwise the square root of the sample variance. -/
noncomputable def seriesStd (l : List ℚ) : Option ℝ :=
  if l.length < 2 then none else some (Real.sqrt (varQ l))

/-- Insertion of a rational into a sorted list, for the median computation. -/
def insertQ (x : ℚ) : List ℚ → List ℚ
  | [] => [x]
  | y :: ys => if x ≤ y then x :: y :: ys else y :: insertQ x ys

/-- Insertion sort on rationals, for the median computation. -/
def sortQ : List ℚ → List ℚ
  | [] => []
  | x :: xs => insertQ x (sortQ xs)

/-- Models pandas `series.median()`: `NaN` on an empty series, the middle
element of the sorted series for odd length, the mean of the two middle
elements for even length. -/
def seriesMedian (l : List ℚ) : Option ℚ :=
  if l = [] then none
  else
    let s := sortQ l
    let n := l.length
    if n % 2 = 1 then some (s.getD (n / 2) 0)
    else some ((s.getD (n / 2 - 1) 0 + s.getD (n / 2) 0) / 2)

/-- Embeds `tab_main.calculate_sharpe_ratio`: when `returns.std() > 0` (a
comparison that is false when the standard deviation is NaN) the ratio is
`(mean - risk_free_rate) / (std * sqrt(normalization_factor))`, otherwise
`0.0`. -/
noncomputable def calculate_sharpe_ratio
    (returns : List ℚ) (risk_free_rate : ℚ) (normalization_factor : ℚ) : ℝ :=
  match seriesStd returns with
  | some s =>
    if 0 < s then
      ((meanQ returns : ℝ) - (risk_free_rate : ℝ)) /
        (s * Real.sqrt (normalization_factor : ℝ))
    else 0
  | none => 0

/-- Embeds `tab_main.calculate_sortino_ratio`: the numerator is the same as for
the Sharpe ratio, the denominator uses the standard deviation of the downside
sub-series `returns[returns < 0]`; `0` when that standard deviation is not
positive (including the NaN cases: no downside returns, or just one). -/
noncomputable def calculate_sortino_ratio
    (returns : List ℚ) (risk_free_rate : ℚ) (normalization_factor : ℚ) : ℝ :=
  let downside_returns := returns.filter (fun r => r < 0)
  match seriesStd downside_returns with
  | some s =>
    if 0 < s then
      ((meanQ returns : ℝ) - (risk_free_rate : ℝ)) /
        (s * Real.sqrt (normalization_factor : ℝ))
    else 0
  | none => 0

/-- Running left fold producing the list of partial results (the shape shared
by pandas `cumprod` and `cummax`). -/
def cumFold (f : ℚ → ℚ → ℚ) : ℚ → List ℚ → List ℚ
  | _, [] => []
  | a, x :: xs => f a x :: cumFold f (f a x) xs

/-- Models pandas `series.cumprod()`. -/
def cumprod (l : List ℚ) : List ℚ := cumFold (· * ·) 1 l

/-- Models pandas `series.cummax()`. -/
def cummax : List ℚ → List ℚ
  | [] => []
  | x :: xs => x :: cumFold max x xs

/-- Embeds `tab_main.calculate_max_drawdown`: cumulative wealth index by the
running product of `1 + r`, running maximum of the wealth index, pointwise
drawdown `(wealth - peak) / peak`, and the minimum drawdown.  The pandas
`min()` of an empty series is NaN, modelled as `none`. -/
def calculate_max_drawdown (returns : List ℚ) : Option ℚ :=
  let wealth_index := cumprod (returns.map (fun r => 1 + r))
  let previous_peaks := cummax wealth_index
  let drawdowns := List.zipWith (fun w p => (w - p) / p) wealth_index previous_peaks
  drawdowns.min?

/-- Models `(returns < 0).astype(int)` of `calculate_duration_of_losses`. -/
def consecutive_losses (returns : List ℚ) : List ℕ :=
  returns.map (fun r => if r < 0 then 1 else 0)

/-- Models the grouped cumulative sum
`x.groupby((x != x.shift()).cumsum()).cumsum()`: a new group starts whenever an
element differs from its predecessor (the first element always starts a group,
as `x.shift()` yields NaN there), and within a group the values are cumulated.
`prev` is the previous element, `acc` the running in-group sum. -/
def groupCumsum (prev : Option ℕ) (acc : ℕ) : List ℕ → List ℕ
  | [] => []
  | x :: rest =>
    let acc' := if some x = prev then acc + x else x
    acc' :: groupCumsum (some x) acc' rest

/-- The `periods_in_loss` series of `calculate_duration_of_losses`. -/
def periods_in_loss (indicators : List ℕ) : List ℕ :=
  groupCumsum none 0 indicators

/-- Embeds `tab_main.calculate_duration_of_losses`: maximum of the grouped
cumulative loss-indicator sums; the pandas `max()` of an empty series is NaN,
modelled as `none`. -/
def calculate_duration_of_losses (returns : List ℚ) : Option ℕ :=
  (periods_in_loss (consecutive_losses returns)).max?

/-- The strategy trade table (`strategy_data` DataFrame).  Each column is
`none` when absent from the table; `nrows` is `shape[0]`.  String-valued
columns other than `Coin` and the date column are irrelevant to every claim
and omitted. -/
structure StrategyData where
  nrows : ℕ
  coin : Option (List String)
  purchasePrice : Option (List ℚ)
  portfolio : Option (List ℚ)
  quantity : Option (List ℚ)
  profitLoss : Option (List ℚ)
  sellPrice : Option (List ℚ)
deriving DecidableEq

/-- Models `strategy_data[name]` for the numeric columns: the column's values,
or `KeyError(name)` when the column is absent. -/
def dfCol (df : StrategyData) (name : String) : Except PyError (List ℚ) :=
  match (if name = "Portfolio" then df.portfolio
         else if name = "Profit / Loss %" then df.profitLoss
         else if name = "Purchase price" then df.purchasePrice
         else if name = "Quantity" then df.quantity
         else if name = "Sell price" then df.sellPrice
         else none) with
  | some v => .ok v
  | none => .error (.keyError name)

/-- The pandas `agg` dictionary computed for the profit and loss sub-series of
`calculate_strategy_stats` (`sum`, `mean`, `count`, `std`, `min`, `max`,
`median`); NaN-able entries are `Option`-valued. -/
structure AggMetrics where
  total : ℚ
  mean : Option ℚ
  count : ℕ
  std : Option ℝ
  min : Option ℚ
  max : Option ℚ
  median : Option ℚ

/-- Evaluates the `agg` dictionary of `calculate_strategy_stats` on a series. -/
noncomputable def aggSeries (l : List ℚ) : AggMetrics :=
  { total := l.sum, mean := seriesMean l, count := l.length, std := seriesStd l,
    min := l.min?, max := l.max?, median := seriesMedian l }

/-- The strategy summary record assembled by `calculate_strategy_stats`
(its `metrics` dictionary / the returned `pd.Series`). -/
structure StrategyStats where
  life_period : ℕ
  profit_count : ℕ
  loss_count : ℕ
  month_over_month : ℚ
  return_on_investment : ℚ
  monthly_return_with_compound_interest : ℚ
  average_return : Option ℚ
  volatility : Option ℝ
  mean_profit : Option ℚ
  mean_loss : Option ℚ
  median_profit : Option ℚ
  median_loss : Option ℚ
  std_profit : Option ℝ
  std_loss : Option ℝ
  max_profit : Option ℚ
  max_loss : Option ℚ
  min_profit : Option ℚ
  min_loss : Option ℚ
  sharpe_ratio : ℝ
  sortino_ratio : ℝ
  max_drawdown : Option ℚ
  duration_of_losses : Option ℕ

/-- Embeds `tab_main.calculate_strategy_stats`.  `rpow` abstracts the float
power operator used for the compound-interest return; the source guards the
exponent `1 / months_count` with `except ZeroDivisionError`, modelled by the
`months_count = 0` test.  Column accesses and `iloc` reads that raise in
Python are `Except` binds here; note that `max_loss` is assigned the loss
sub-series `Minimum` and `min_loss` its `Maximum`, exactly as in the source. -/
noncomputable def calculate_strategy_stats (rpow : ℚ → ℚ → ℚ) (df : StrategyData) :
    Except PyError StrategyStats := do
  let portfolioCol ← dfCol df "Portfolio"
  let start_portfolio_balance ← iloc0 portfolioCol
  let current_portfolio_balance ← ilocLast portfolioCol
  let months_count := df.nrows - 1
  let roi := (current_portfolio_balance - start_portfolio_balance) / start_portfolio_balance
  let return_with_compound_interest :=
    if months_count = 0 then 0
    else rpow (current_portfolio_balance / start_portfolio_balance) (1 / (months_count : ℚ))
  let yields ← dfCol df "Profit / Loss %"
  let profit_metrics := aggSeries (yields.filter (fun y => 0 < y))
  let loss_metrics := aggSeries (yields.filter (fun y => y < 0))
  let sharpe_ratio := calculate_sharpe_ratio yields 0 (yields.length : ℚ)
  let sortino_ratio := calculate_sortino_ratio yields 0 (yields.length : ℚ)
  let max_drawdown := calculate_max_drawdown yields
  let duration_of_losses := calculate_duration_of_losses yields
  let month_over_month ← ilocLast yields
  pure
    { life_period := df.nrows
      profit_count := profit_metrics.count
      loss_count := loss_metrics.count
      month_over_month := month_over_month
      return_on_investment := roi
      monthly_return_with_compound_interest := return_with_compound_interest
      average_return := seriesMean yields
      volatility := seriesStd yields
      mean_profit := profit_metrics.mean
      mean_loss := loss_metrics.mean
      median_profit := profit_metrics.median
      median_loss := loss_metrics.median
      std_profit := profit_metrics.std
      std_loss := loss_metrics.std
      max_profit := profit_metrics.max
      max_loss := loss_metrics.min
      min_profit := profit_metrics.min
      min_loss := loss_metrics.max
      sharpe_ratio := sharpe_ratio
      sortino_ratio := sortino_ratio
      max_drawdown := max_drawdown
      duration_of_losses := duration_of_losses }

/-- Outcome of the CoinMarketCap HTTP request made by
`get_coinmarketcap_price`: a quoted price, a network failure
(`ConnectionError` / `Timeout` / `TooManyRedirects`), or a response whose JSON
lacks the expected keys. -/
inductive NetResult where
  | price (p : ℚ)
  | netError
  | badResponse
deriving DecidableEq

/-- Embeds `tab_main.get_coinmarketcap_price`: network errors are caught and
turned into `None` (after showing `st.error`), a malformed response raises
`KeyError` out of the function, otherwise the quoted price is returned. -/
def get_coinmarketcap_price (symbol : String) (net : NetResult) :
    Except PyError (Option ℚ) :=
  match net with
  | .price p => .ok (some p)
  | .netError => .ok none
  | .badResponse => .error (.keyError symbol)

/-- Models the in-place cell write
`strategy_data.loc[strategy_data.index[-1], col] = v` on one column: the last
entry of the column is overwritten.  (When the column is absent pandas would
create it filled with NaN except for the written cell; that case involves NA
cells, lies outside this NA-free table model, and is not exercised by any
theorem below, so the column is left absent.) -/
def setLastQ (col : Option (List ℚ)) (v : ℚ) : Option (List ℚ) :=
  match col with
  | some l => some (l.set (l.length - 1) v)
  | none => none

/-- The `try` body of `update_portfolio_current_balance` after its two guard
checks: read the latest coin, fetch its live price, and overwrite the last
row's `Sell price`, `Profit / Loss %` and `Portfolio` cells.  The `.loc`
writes mutate `strategy_data` itself, so the returned table is also the
post-call state of the caller's object.  When the price lookup failed
(`None`), the subtraction `current_price - purchase_price` raises
`TypeError`. -/
def updateBody (net : NetResult) (df : StrategyData) : Except PyError StrategyData := do
  let coins ← ofOpt (.keyError "Coin") df.coin
  let latest_coin ← ilocLast coins
  let price? ← get_coinmarketcap_price latest_coin net
  let purchasePrices ← ofOpt (.keyError "Purchase price") df.purchasePrice
  let purchase_price ← ilocLast purchasePrices
  let current_price ← ofOpt .typeError price?
  let current_rate_of_return := (current_price - purchase_price) / purchase_price
  let quantities ← ofOpt (.keyError "Quantity") df.quantity
  let latest_quantity ← ilocLast quantities
  let current_portfolio_balance := latest_quantity * current_price
  let df1 := { df with sellPrice := setLastQ df.sellPrice current_price }
  let df2 := { df1 with profitLoss := setLastQ df1.profitLoss current_rate_of_return }
  let df3 := { df2 with portfolio := setLastQ df2.portfolio current_portfolio_balance }
  pure df3

/-- Embeds `tab_main.update_portfolio_current_balance`.  The result pairs the
returned table with the warnings shown via `st.warning`.  Missing
`Coin` / `Purchase price` / `Quantity` columns or an empty table return the
input unchanged with a warning; the `except (KeyError, IndexError)` handler
also returns the input with a warning; every other exception — in particular
the `TypeError` arising when the price lookup returned `None` — propagates to
the caller uncaught. -/
def update_portfolio_current_balance (net : NetResult) (df : StrategyData) :
    Except PyError (StrategyData × List String) :=
  if df.coin.isNone || df.purchasePrice.isNone || df.quantity.isNone then
    .ok (df, ["Missing necessary columns in strategy_data. Unable to update portfolio balance."])
  else if df.nrows = 0 then
    .ok (df, ["Empty strategy_data. Unable to update portfolio balance."])
  else
    match updateBody net df with
    | .ok df3 => .ok (df3, [])
    | .error (.keyError k) => .ok (df, ["Error updating current balance: KeyError " ++ k])
    | .error .indexError => .ok (df, ["Error updating current balance: IndexError"])
    | .error e => .error e

/-- Keeps the entries of a column whose row passed the boolean mask (pandas
row selection `df[mask]`). -/
def maskKeep (mask : List Bool) (l : List α) : List α :=
  (List.zip mask l).filterMap (fun p => if p.1 then some p.2 else none)

/-- Applies a row mask to every column of a table (pandas `df[mask]`). -/
def applyMask (df : StrategyData) (mask : List Bool) : StrategyData :=
  { nrows := mask.count true
    coin := df.coin.map (maskKeep mask)
    purchasePrice := df.purchasePrice.map (maskKeep mask)
    portfolio := df.portfolio.map (maskKeep mask)
    quantity := df.quantity.map (maskKeep mask)
    profitLoss := df.profitLoss.map (maskKeep mask)
    sellPrice := df.sellPrice.map (maskKeep mask) }

/-- Embeds `tab_main.exclude_outliers`: raises `ValueError` when the
`Profit / Loss %` column is absent, otherwise keeps the rows whose return lies
in `[-5, 5]` (`between` is inclusive) and returns that fresh filtered table
(`reset_index` only renumbers the index, which this model does not carry). -/
def exclude_outliers (df : StrategyData) : Except PyError StrategyData :=
  match df.profitLoss with
  | none => .error (.valueError "Column Profit / Loss % not found in strategy_data.")
  | some ys => .ok (applyMask df (ys.map (fun y => decide (-5 ≤ y ∧ y ≤ 5))))

/-- A correlation matrix as produced by `df.corr(numeric_only=True)`: row
labels, column labels, and the entry lookup `matrix.loc[base, other]`. -/
structure CorrMatrix where
  index : List String
  columns : List String
  entry : String → String → ℚ

/-- Embeds `find_negative_correlation_coins` (identical function bodies in
`tab_corr.py` and `tab_data.py`): for every row label a mapping (modelled as
an association list in insertion order, matching Python dict order for the
distinct labels of a correlation matrix) of the other assets whose correlation
with it is strictly negative. -/
def find_negative_correlation_coins (m : CorrMatrix) :
    List (String × List (String × ℚ)) :=
  m.index.map (fun base_coin =>
    (base_coin,
      m.columns.filterMap (fun coin =>
        if base_coin ≠ coin ∧ m.entry base_coin coin < 0 then
          some (coin, m.entry base_coin coin)
        else none)))

/-! Specification-side definitions, written from the specification's wording,
to be compared with the embedded code. -/

/-- Spec-side wealth index at position `i`: the product of `1 + r` over the
first `i + 1` returns. -/
def specWealth (l : List ℚ) (i : ℕ) : ℚ :=
  ((l.take (i + 1)).map (fun r => 1 + r)).prod

/-- Spec-side running maximum of the wealth index. -/
def specPeak (l : List ℚ) : ℕ → ℚ
  | 0 => specWealth l 0
  | i + 1 => max (specPeak l i) (specWealth l (i + 1))

/-- Spec-side pointwise drawdown `(wealth - running_max) / running_max`. -/
def specDrawdownAt (l : List ℚ) (i : ℕ) : ℚ :=
  (specWealth l i - specPeak l i) / specPeak l i

/-- Length of the initial run of strictly negative returns. -/
def negPrefixLen : List ℚ → ℕ
  | [] => 0
  | r :: rest => if r < 0 then negPrefixLen rest + 1 else 0

/-- Spec-side maximal loss-streak length: the maximum, over all suffix
positions, of the length of the negative run starting there; equivalently the
greatest length of an all-negative contiguous segment. -/
def specMaxStreak : List ℚ → ℕ
  | [] => 0
  | r :: rest => max (negPrefixLen (r :: rest)) (specMaxStreak rest)

/-- One-pass reformulation of the grouped cumulative sum on loss indicators:
the running loss counter, reset to `0` at every non-loss. -/
def runScan : ℕ → List ℚ → List ℕ
  | _, [] => []
  | k, r :: rest =>
    (if r < 0 then k + 1 else 0) :: runScan (if r < 0 then k + 1 else 0) rest

/-- Fold form of the maximal loss streak: `cur` is the current run length and
`best` the best run seen so far. -/
def streakFold : List ℚ → ℕ → ℕ → ℕ
  | [], _, best => best
  | r :: rest, cur, best =>
    if r < 0 then streakFold rest (cur + 1) (max best (cur + 1))
    else streakFold rest 0 best

/-- A strategy table lacking the `Portfolio` column (used as a concrete
structural-error input). -/
def exampleMissingPortfolio : StrategyData :=
  { nrows := 2, coin := some ["BTC", "ETH"], purchasePrice := some [1, 2],
    portfolio := none, quantity := some [1, 1], profitLoss := some [0, 1],
    sellPrice := some [1, 2] }

/-- A two-row strategy table with one profit and one loss period. -/
def exampleLossTable : StrategyData :=
  { nrows := 2, coin := some ["BTC", "ETH"], purchasePrice := some [1, 2],
    portfolio := some [100, 110], quantity := some [1, 1],
    profitLoss := some [1/10, -1/5], sellPrice := some [1, 2] }

/-- A 2-by-2 correlation matrix with a negative off-diagonal pair. -/
def exampleCorrMatrix : CorrMatrix :=
  { index := ["A", "B"], columns := ["A", "B"],
    entry := fun a b => if a = b then 1 else -1 }

/-- A 2-by-2 correlation matrix with no negative entries. -/
def exampleNoNegMatrix : CorrMatrix :=
  { index := ["A", "B"], columns := ["A", "B"],
    entry := fun _ _ => 1 }

/-! Generic helpers about `List.min?` / `List.max?` over a linear order. -/

/-- A left fold with `min` yields either the seed or a list element, and is a
lower bound for the seed and all elements. -/
theorem foldlMin_spec {α : Type} [LinearOrder α] (xs : List α) (x : α) :
    (xs.foldl min x = x ∨ xs.foldl min x ∈ xs) ∧
      xs.foldl min x ≤ x ∧ ∀ y ∈ xs, xs.foldl min x ≤ y := by
  induction xs generalizing x with
  | nil => simp
  | cons y ys ih =>
    obtain ⟨hmem, hle, hall⟩ := ih (min x y)
    refine ⟨?_, ?_, ?_⟩
    · rcases hmem with h | h
      · rcases min_choice x y with hc | hc
        · left; rw [List.foldl_cons, h, hc]
        · right; rw [List.foldl_cons, h, hc]; exact List.mem_cons_self _ _
      · right; exact List.mem_cons_of_mem _ h
    · exact le_trans hle (min_le_left _ _)
    · intro z hz
      rcases List.mem_cons.1 hz with rfl | hz
      · exact le_trans hle (min_le_right _ _)
      · exact hall z hz

/-- Characterisation of `List.min?` over a linear order: its value is a least
element of the list. -/
theorem min?_spec {α : Type} [LinearOrder α] {l : List α} {m : α}
    (h : l.min? = some m) : m ∈ l ∧ ∀ x ∈ l, m ≤ x := by
  cases l with
  | nil => simp at h
  | cons x xs =>
    rw [List.min?_cons'] at h
    obtain ⟨hmem, hle, hall⟩ := foldlMin_spec xs x
    obtain rfl : xs.foldl min x = m := by injection h
    refine ⟨?_, ?_⟩
    · rcases hmem with h1 | h1
      · rw [h1]; exact List.mem_cons_self _ _
      · exact List.mem_cons_of_mem _ h1
    · intro z hz
      rcases List.mem_cons.1 hz with rfl | hz
      · exact hle
      · exact hall z hz

/-- A nonempty list has a `min?`. -/
theorem min?_isSome {α : Type} [LinearOrder α] {l : List α} (h : l ≠ []) :
    ∃ m, l.min? = some m := by
  cases l with
  | nil => exact absurd rfl h
  | cons x xs => exact ⟨xs.foldl min x, List.min?_cons'⟩

/-- A left fold with `max` yields either the seed or a list element, and is an
upper bound for the seed and all elements. -/
theorem foldlMax_spec {α : Type} [LinearOrder α] (xs : List α) (x : α) :
    (xs.foldl max x = x ∨ xs.foldl max x ∈ xs) ∧
      x ≤ xs.foldl max x ∧ ∀ y ∈ xs, y ≤ xs.foldl max x := by
  induction xs generalizing x with
  | nil => simp
  | cons y ys ih =>
    obtain ⟨hmem, hle, hall⟩ := ih (max x y)
    refine ⟨?_, ?_, ?_⟩
    · rcases hmem with h | h
      · rcases max_choice x y with hc | hc
        · left; rw [List.foldl_cons, h, hc]
        · right; rw [List.foldl_cons, h, hc]; exact List.mem_cons_self _ _
      · right; exact List.mem_cons_of_mem _ h
    · exact le_trans (le_max_left _ _) hle
    · intro z hz
      rcases List.mem_cons.1 hz with rfl | hz
      · exact le_trans (le_max_right _ _) hle
      · exact hall z hz

/-- Characterisation of `List.max?` over a linear order: its value is a
greatest element of the list. -/
theorem max?_spec {α : Type} [LinearOrder α] {l : List α} {m : α}
    (h : l.max? = some m) : m ∈ l ∧ ∀ x ∈ l, x ≤ m := by
  cases l with
  | nil => simp at h
  | cons x xs =>
    rw [List.max?_cons'] at h
    obtain ⟨hmem, hle, hall⟩ := foldlMax_spec xs x
    obtain rfl : xs.foldl max x = m := by injection h
    refine ⟨?_, ?_⟩
    · rcases hmem with h1 | h1
      · rw [h1]; exact List.mem_cons_self _ _
      · exact List.mem_cons_of_mem _ h1
    · intro z hz
      rcases List.mem_cons.1 hz with rfl | hz
      · exact hle
      · exact hall z hz

/-- A nonempty list has a `max?`. -/
theorem max?_isSome {α : Type} [LinearOrder α] {l : List α} (h : l ≠ []) :
    ∃ m, l.max? = some m := by
  cases l with
  | nil => exact absurd rfl h
  | cons x xs => exact ⟨xs.foldl max x, List.max?_cons'⟩

/-- A `cumFold` has the length of its input. -/
theorem cumFold_length (f : ℚ → ℚ → ℚ) :
    ∀ (l : List ℚ) (a : ℚ), (cumFold f a l).length = l.length
  | [], _ => rfl
  | x :: xs, a => by simp [cumFold, cumFold_length f xs (f a x)]

/-- The `i`-th entry of a `cumFold` is the fold over the first `i + 1`
elements. -/
theorem cumFold_getElem? (f : ℚ → ℚ → ℚ) :
    ∀ (l : List ℚ) (a : ℚ) (i : ℕ), i < l.length →
      (cumFold f a l)[i]? = some ((l.take (i + 1)).foldl f a) := by
  intro l
  induction l with
  | nil => intro a i h; simp at h
  | cons x xs ih =>
    intro a i h
    cases i with
    | zero => simp [cumFold]
    | succ j =>
      have hj : j < xs.length := by simpa using h
      simp only [cumFold, List.getElem?_cons_succ, List.take_succ_cons, List.foldl_cons]
      exact ih (f a x) j hj

/-- The `i`-th entry of the wealth index of `calculate_max_drawdown` is the
spec-side wealth value. -/
theorem wealth_getElem? (l : List ℚ) (i : ℕ) (h : i < l.length) :
    (cumprod (l.map (fun r => 1 + r)))[i]? = some (specWealth l i) := by
  have hlen : i < (l.map (fun r => 1 + r)).length := by simpa using h
  rw [cumprod, cumFold_getElem? _ _ _ _ hlen, specWealth, List.map_take,
    List.prod_eq_foldl]

/-- The `i`-th entry of `cummax` on a nonempty list is a prefix `max` fold. -/
theorem cummax_getElem? (x : ℚ) (xs : List ℚ) (i : ℕ)
    (h : i < (x :: xs).length) :
    (cummax (x :: xs))[i]? = some ((xs.take i).foldl max x) := by
  cases i with
  | zero => simp [cummax]
  | succ j =>
    have hj : j < xs.length := by simpa using h
    simpa [cummax] using cumFold_getElem? max xs x j hj

/-- A prefix `max` fold over successive wealth values is the spec-side running
peak. -/
theorem foldlMax_take_spec (l xs : List ℚ) (x : ℚ) (hx : x = specWealth l 0)
    (hxs : ∀ j, j + 1 < l.length → xs[j]? = some (specWealth l (j + 1))) :
    ∀ i, i < l.length → (xs.take i).foldl max x = specPeak l i := by
  intro i
  induction i with
  | zero => intro _; simpa [specPeak] using hx
  | succ j ih =>
    intro h
    have hj : j < l.length := Nat.lt_of_succ_lt h
    have hget : xs[j]? = some (specWealth l (j + 1)) := hxs j h
    rw [List.take_succ, hget]
    simp only [Option.toList_some, List.foldl_append, List.foldl_cons, List.foldl_nil]
    rw [ih hj, specPeak]

/-- The `i`-th entry of the running peak of `calculate_max_drawdown` is the
spec-side peak value. -/
theorem peaks_getElem? (l : List ℚ) (i : ℕ) (h : i < l.length) :
    (cummax (cumprod (l.map (fun r => 1 + r))))[i]? = some (specPeak l i) := by
  cases l with
  | nil => simp at h
  | cons r rest =>
    have hcons :
        cumprod ((r :: rest).map (fun s => 1 + s)) =
          (1 * (1 + r)) :: cumFold (· * ·) (1 * (1 + r)) (rest.map (fun s => 1 + s)) := by
      simp [cumprod, cumFold]
    rw [hcons, cummax_getElem? _ _ _ (by simpa [cumFold_length] using h)]
    congr 1
    refine foldlMax_take_spec (r :: rest) _ _ ?_ ?_ i h
    · have := wealth_getElem? (r :: rest) 0 (by simp)
      rw [hcons] at this
      simpa using this
    · intro j hj
      have := wealth_getElem? (r :: rest) (j + 1) hj
      rw [hcons] at this
      simpa using this

/-- A `cummax` has the length of its input. -/
theorem cummax_length : ∀ (l : List ℚ), (cummax l).length = l.length
  | [] => rfl
  | x :: xs => by simp [cummax, cumFold_length]

/-- The drawdown series computed by `calculate_max_drawdown` is exactly the
spec-side pointwise drawdown, position by position. -/
theorem drawdowns_eq (l : List ℚ) :
    List.zipWith (fun w p => (w - p) / p) (cumprod (l.map (fun r => 1 + r)))
        (cummax (cumprod (l.map (fun r => 1 + r)))) =
      (List.range l.length).map (specDrawdownAt l) := by
  apply List.ext_getElem?
  intro n
  by_cases hn : n < l.length
  · rw [List.getElem?_zipWith, wealth_getElem? l n hn, peaks_getElem? l n hn]
    simp [List.getElem?_range hn, specDrawdownAt]
  · have h1 : l.length ≤ n := Nat.le_of_not_lt hn
    rw [List.getElem?_eq_none, List.getElem?_eq_none]
    · simpa using h1
    · rw [List.length_zipWith, cummax_length, cumprod, cumFold_length]
      simp [Nat.min_self, h1]

/-- The embedded max drawdown equals the `min?` of the spec-side drawdown
values. -/
theorem calculate_max_drawdown_eq (l : List ℚ) :
    calculate_max_drawdown l =
      ((List.range l.length).map (specDrawdownAt l)).min? := by
  rw [calculate_max_drawdown, drawdowns_eq]

/-- Claim C3: for every non-empty return series, the max drawdown is the
minimum (most negative) of the pointwise drawdowns
`(wealth_i - runmax_i) / runmax_i` of the running-product wealth index with
its running maximum; on `[0.1, -0.2, 0.1]` the result is `-0.2`. -/
theorem c3_max_drawdown_follows_spec :
    (∀ l : List ℚ, l ≠ [] →
        calculate_max_drawdown l =
          ((List.range l.length).map (specDrawdownAt l)).min? ∧
        ∃ m, calculate_max_drawdown l = some m ∧
          m ∈ (List.range l.length).map (specDrawdownAt l) ∧
          ∀ d ∈ (List.range l.length).map (specDrawdownAt l), m ≤ d) ∧
      calculate_max_drawdown [1/10, -1/5, 1/10] = some (-(1/5)) := by
  constructor
  · intro l hl
    refine ⟨calculate_max_drawdown_eq l, ?_⟩
    have hne : (List.range l.length).map (specDrawdownAt l) ≠ [] := by
      simp only [ne_eq, List.map_eq_nil_iff, List.range_eq_nil]
      simpa using fun h => hl (List.eq_nil_of_length_eq_zero h)
    obtain ⟨m, hm⟩ := min?_isSome hne
    obtain ⟨hmem, hle⟩ := min?_spec hm
    exact ⟨m, by rw [calculate_max_drawdown_eq l, hm], hmem, hle⟩
  · norm_num [calculate_max_drawdown, cumprod, cummax, cumFold, List.min?_cons',
      List.min?]

/-- Concrete instantiation of the universally quantified part of claim C3 at
the series from the specification. -/
theorem c3_max_drawdown_follows_spec_witness :
    calculate_max_drawdown [1/10, -1/5, 1/10] =
      ((List.range (List.length [(1 : ℚ)/10, -1/5, 1/10])).map
        (specDrawdownAt [1/10, -1/5, 1/10])).min? :=
  (c3_max_drawdown_follows_spec.1 [1/10, -1/5, 1/10] (by simp)).1

/-- The grouped cumulative sum on loss indicators coincides with the one-pass
run scan, for either value of the previous indicator. -/
theorem groupCumsum_eq_runScan :
    ∀ (l : List ℚ) (k : ℕ),
      groupCumsum (some 1) k (consecutive_losses l) = runScan k l ∧
        groupCumsum (some 0) 0 (consecutive_losses l) = runScan 0 l := by
  intro l
  induction l with
  | nil => intro k; exact ⟨rfl, rfl⟩
  | cons r rest ih =>
    intro k
    by_cases hr : r < 0
    · constructor
      · have h1 := (ih (k + 1)).1
        simp only [consecutive_losses] at h1
        simp [consecutive_losses, groupCumsum, runScan, hr, h1]
      · have h1 := (ih 1).1
        simp only [consecutive_losses] at h1
        simp [consecutive_losses, groupCumsum, runScan, hr, h1]
    · constructor
      · have h2 := (ih k).2
        simp only [consecutive_losses] at h2
        simp [consecutive_losses, groupCumsum, runScan, hr, h2]
      · have h2 := (ih k).2
        simp only [consecutive_losses] at h2
        simp [consecutive_losses, groupCumsum, runScan, hr, h2]

/-- The `periods_in_loss` series is the one-pass run scan started at zero. -/
theorem periods_in_loss_eq_runScan (l : List ℚ) :
    periods_in_loss (consecutive_losses l) = runScan 0 l := by
  cases l with
  | nil => rfl
  | cons r rest =>
    by_cases hr : r < 0
    · have h1 := (groupCumsum_eq_runScan rest 1).1
      simp only [consecutive_losses] at h1
      simp [periods_in_loss, consecutive_losses, groupCumsum, runScan, hr, h1]
    · have h2 := (groupCumsum_eq_runScan rest 0).2
      simp only [consecutive_losses] at h2
      simp [periods_in_loss, consecutive_losses, groupCumsum, runScan, hr, h2]

/-- Folding `max` over a run scan is the streak fold. -/
theorem runScan_foldl_max :
    ∀ (l : List ℚ) (k best : ℕ),
      (runScan k l).foldl max best = streakFold l k best := by
  intro l
  induction l with
  | nil => intro k best; rfl
  | cons r rest ih =>
    intro k best
    by_cases hr : r < 0
    · simp [runScan, streakFold, hr, ih]
    · simp [runScan, streakFold, hr, ih]

/-- The maximum of the `periods_in_loss` series of a nonempty series is the
streak fold. -/
theorem max?_periods_in_loss (l : List ℚ) (h : l ≠ []) :
    (periods_in_loss (consecutive_losses l)).max? = some (streakFold l 0 0) := by
  rw [periods_in_loss_eq_runScan]
  cases l with
  | nil => exact absurd rfl h
  | cons r rest =>
    by_cases hr : r < 0
    · rw [show runScan 0 (r :: rest) = 1 :: runScan 1 rest by simp [runScan, hr]]
      rw [List.max?_cons', runScan_foldl_max]
      simp [streakFold, hr]
    · rw [show runScan 0 (r :: rest) = 0 :: runScan 0 rest by simp [runScan, hr]]
      rw [List.max?_cons', runScan_foldl_max]
      simp [streakFold, hr]

/-- The initial negative run is never longer than the spec-side maximal
streak. -/
theorem negPrefixLen_le_specMaxStreak : ∀ (l : List ℚ), negPrefixLen l ≤ specMaxStreak l
  | [] => le_refl 0
  | _ :: _ => le_max_left _ _

/-- Closed form of the streak fold in terms of the spec-side quantities. -/
theorem streakFold_eq (l : List ℚ) :
    ∀ (cur best : ℕ),
      streakFold l cur best =
        max best (max (if negPrefixLen l = 0 then 0 else cur + negPrefixLen l)
          (specMaxStreak l)) := by
  induction l with
  | nil => intro cur best; simp [streakFold, specMaxStreak, negPrefixLen]
  | cons r rest ih =>
    intro cur best
    have hle := negPrefixLen_le_specMaxStreak rest
    by_cases hr : r < 0
    · rw [show streakFold (r :: rest) cur best
            = streakFold rest (cur + 1) (max best (cur + 1)) by simp [streakFold, hr],
        ih]
      simp only [negPrefixLen, specMaxStreak, hr, if_true]
      by_cases hz : negPrefixLen rest = 0
      · rw [hz]; simp; omega
      · rw [if_neg hz, if_neg (by omega : ¬ negPrefixLen rest + 1 = 0)]; omega
    · rw [show streakFold (r :: rest) cur best = streakFold rest 0 best by
            simp [streakFold, hr],
        ih]
      simp only [negPrefixLen, specMaxStreak, hr, if_false]
      by_cases hz : negPrefixLen rest = 0
      · rw [hz]; simp
      · rw [if_neg hz]; simp; omega

/-- The streak fold started from zero computes the spec-side maximal
streak. -/
theorem streakFold_zero (l : List ℚ) : streakFold l 0 0 = specMaxStreak l := by
  have hle := negPrefixLen_le_specMaxStreak l
  rw [streakFold_eq]
  by_cases hz : negPrefixLen l = 0
  · simp [hz]
  · rw [if_neg hz]
    omega

/-- The initial negative run: its `take` is all-negative and has length
`negPrefixLen`. -/
theorem negPrefix_take :
    ∀ (l : List ℚ),
      (∀ r ∈ l.take (negPrefixLen l), r < 0) ∧
        (l.take (negPrefixLen l)).length = negPrefixLen l := by
  intro l
  induction l with
  | nil => simp [negPrefixLen]
  | cons r rest ih =>
    by_cases hr : r < 0
    · rw [show negPrefixLen (r :: rest) = negPrefixLen rest + 1 by
        simp [negPrefixLen, hr]]
      refine ⟨?_, ?_⟩
      · intro s hs
        rcases List.mem_cons.1 (by simpa using hs) with rfl | hsr
        · exact hr
        · exact ih.1 s hsr
      · have := ih.2
        have hlen : negPrefixLen rest ≤ rest.length := by
          by_contra hgt
          have h2 : (rest.take (negPrefixLen rest)).length = rest.length := by
            rw [List.length_take]
            omega
          omega
        simp [List.length_take]
        omega
    · rw [show negPrefixLen (r :: rest) = 0 by simp [negPrefixLen, hr]]
      simp

/-- Any all-negative prefix is no longer than the initial negative run. -/
theorem prefix_allNeg_le_negPrefixLen :
    ∀ (t l : List ℚ), t <+: l → (∀ r ∈ t, r < 0) → t.length ≤ negPrefixLen l := by
  intro t
  induction t with
  | nil => intro l _ _; simp
  | cons x t2 ih =>
    intro l hpre hneg
    cases l with
    | nil => exact absurd (List.eq_nil_of_prefix_nil hpre) (by simp)
    | cons y l2 =>
      obtain ⟨rfl, hpre2⟩ := List.cons_prefix_cons.1 hpre
      have hx : x < 0 := hneg x (List.mem_cons_self _ _)
      rw [show negPrefixLen (x :: l2) = negPrefixLen l2 + 1 by simp [negPrefixLen, hx]]
      have := ih l2 hpre2 (fun r hr => hneg r (List.mem_cons_of_mem _ hr))
      simpa using this

/-- The spec-side maximal streak is attained by an all-negative contiguous
segment. -/
theorem specMaxStreak_attained :
    ∀ (l : List ℚ), ∃ t, t <:+: l ∧ (∀ r ∈ t, r < 0) ∧ t.length = specMaxStreak l := by
  intro l
  induction l with
  | nil => exact ⟨[], List.infix_rfl, by simp, rfl⟩
  | cons r rest ih =>
    rcases max_choice (negPrefixLen (r :: rest)) (specMaxStreak rest) with hc | hc
    · refine ⟨(r :: rest).take (negPrefixLen (r :: rest)),
        (List.take_prefix _ _).isInfix, (negPrefix_take (r :: rest)).1, ?_⟩
      rw [(negPrefix_take (r :: rest)).2, specMaxStreak, hc]
    · obtain ⟨t, hinf, hneg, hlen⟩ := ih
      exact ⟨t, List.infix_cons hinf, hneg, by rw [hlen, specMaxStreak, hc]⟩

/-- No all-negative contiguous segment is longer than the spec-side maximal
streak. -/
theorem specMaxStreak_maximal :
    ∀ (l t : List ℚ), t <:+: l → (∀ r ∈ t, r < 0) → t.length ≤ specMaxStreak l := by
  intro l
  induction l with
  | nil =>
    intro t hinf _
    simp [List.eq_nil_of_infix_nil hinf]
  | cons r rest ih =>
    intro t hinf hneg
    rcases List.infix_cons_iff.1 hinf with hpre | hinf2
    · exact le_trans (prefix_allNeg_le_negPrefixLen t (r :: rest) hpre hneg)
        (le_max_left _ _)
    · exact le_trans (ih t hinf2 hneg) (le_max_right _ _)

/-- On a nonempty series, the embedded loss-duration metric is the spec-side
maximal streak. -/
theorem calculate_duration_of_losses_eq (l : List ℚ) (h : l ≠ []) :
    calculate_duration_of_losses l = some (specMaxStreak l) := by
  rw [calculate_duration_of_losses, max?_periods_in_loss l h, streakFold_zero]

/-- Claim C6: for every non-empty return series, the loss-duration metric is
the greatest length of an all-negative contiguous segment (so `0` when no
return is negative), and on `[-0.1, -0.1, 0.1, -0.1]` it yields `2`. -/
theorem c6_loss_streak_follows_spec :
    (∀ l : List ℚ, l ≠ [] →
        ∃ k, calculate_duration_of_losses l = some k ∧
          (∃ t, t <:+: l ∧ (∀ r ∈ t, r < 0) ∧ t.length = k) ∧
          (∀ t, t <:+: l → (∀ r ∈ t, r < 0) → t.length ≤ k) ∧
          ((∀ r ∈ l, ¬ r < 0) → k = 0)) ∧
      calculate_duration_of_losses [-1/10, -1/10, 1/10, -1/10] = some 2 := by
  constructor
  · intro l hl
    refine ⟨specMaxStreak l, calculate_duration_of_losses_eq l hl,
      specMaxStreak_attained l, specMaxStreak_maximal l, ?_⟩
    intro hnone
    obtain ⟨t, hinf, hneg, hlen⟩ := specMaxStreak_attained l
    cases t with
    | nil => exact hlen.symm
    | cons x t2 =>
      exact absurd (hneg x (List.mem_cons_self _ _))
        (hnone x (hinf.subset (List.mem_cons_self _ _)))
  · norm_num [calculate_duration_of_losses, consecutive_losses, periods_in_loss,
      groupCumsum, List.max?_cons', List.max?]

/-- Concrete instantiation of the universally quantified part of claim C6 at
the series from the specification. -/
theorem c6_loss_streak_follows_spec_witness :
    ∃ k, calculate_duration_of_losses [-1/10, -1/10, 1/10, -1/10] = some k ∧
      (∃ t, t <:+: ([-1/10, -1/10, 1/10, -1/10] : List ℚ) ∧ (∀ r ∈ t, r < 0) ∧ t.length = k) ∧
      (∀ t, t <:+: ([-1/10, -1/10, 1/10, -1/10] : List ℚ) → (∀ r ∈ t, r < 0) → t.length ≤ k) ∧
      ((∀ r ∈ ([-1/10, -1/10, 1/10, -1/10] : List ℚ), ¬ r < 0) → k = 0) :=
  c6_loss_streak_follows_spec.1 [-1/10, -1/10, 1/10, -1/10] (by simp)

/-- Mean of a constant series is the constant. -/
theorem meanQ_replicate (n : ℕ) (c : ℚ) (h : n ≠ 0) :
    meanQ (List.replicate n c) = c := by
  rw [meanQ, List.sum_replicate, List.length_replicate, nsmul_eq_mul,
    mul_div_cancel_left₀ c (show (n : ℚ) ≠ 0 by exact_mod_cast h)]

/-- Sample variance of a constant series is zero. -/
theorem varQ_replicate (n : ℕ) (c : ℚ) (h : n ≠ 0) :
    varQ (List.replicate n c) = 0 := by
  rw [varQ, List.map_replicate, meanQ_replicate n c h]
  simp

/-- The Sharpe ratio when the standard deviation is defined. -/
theorem sharpe_of_std_some (l : List ℚ) (rf nf : ℚ) (s : ℝ)
    (h : seriesStd l = some s) :
    calculate_sharpe_ratio l rf nf =
      if 0 < s then ((meanQ l : ℝ) - (rf : ℝ)) / (s * Real.sqrt (nf : ℝ)) else 0 := by
  unfold calculate_sharpe_ratio
  rw [h]

/-- The Sharpe ratio is `0` whenever the sample variance vanishes (which
covers both the zero-deviation case and the NaN cases of short series, where
`varQ` is the rational expression `0 / 0 = 0` or `0 / (-1) = 0`). -/
theorem sharpe_zero_of_varQ_zero (l : List ℚ) (rf nf : ℚ) (h : varQ l = 0) :
    calculate_sharpe_ratio l rf nf = 0 := by
  by_cases hlen : l.length < 2
  · unfold calculate_sharpe_ratio
    rw [seriesStd, if_pos hlen]
  · have hstd : seriesStd l = some (Real.sqrt (varQ l : ℝ)) := by
      rw [seriesStd, if_neg hlen]
    rw [sharpe_of_std_some l rf nf _ hstd, h]
    simp

/-- The Sharpe ratio is `0` on a series with fewer than two observations
(pandas `std()` is NaN there; `NaN > 0` is false). -/
theorem sharpe_zero_of_short (l : List ℚ) (rf nf : ℚ) (h : l.length < 2) :
    calculate_sharpe_ratio l rf nf = 0 := by
  unfold calculate_sharpe_ratio
  rw [seriesStd, if_pos h]

/-- Claim C4: the Sharpe ratio is `(mean - risk_free_rate) /
(std * sqrt(normalization_factor))` when the standard deviation is positive,
and `0.0` when the standard deviation is zero or undefined — a single
observation, or a constant series of length at least two — with no error in
the degenerate cases. -/
theorem c4_sharpe_ratio_formula_and_guard :
    (∀ (returns : List ℚ) (risk_free_rate normalization_factor : ℚ),
        (2 ≤ returns.length → 0 < varQ returns →
          calculate_sharpe_ratio returns risk_free_rate normalization_factor =
            ((meanQ returns : ℝ) - (risk_free_rate : ℝ)) /
              (Real.sqrt (varQ returns : ℝ) * Real.sqrt (normalization_factor : ℝ))) ∧
        (returns.length = 1 →
          calculate_sharpe_ratio returns risk_free_rate normalization_factor = 0) ∧
        (varQ returns = 0 →
          calculate_sharpe_ratio returns risk_free_rate normalization_factor = 0)) ∧
      ∀ (c : ℚ) (n : ℕ) (risk_free_rate normalization_factor : ℚ), 2 ≤ n →
        calculate_sharpe_ratio (List.replicate n c) risk_free_rate
          normalization_factor = 0 := by
  constructor
  · intro returns rf nf
    refine ⟨?_, ?_, sharpe_zero_of_varQ_zero returns rf nf⟩
    · intro hlen hvar
      have hstd : seriesStd returns = some (Real.sqrt (varQ returns : ℝ)) := by
        rw [seriesStd, if_neg (by omega)]
      rw [sharpe_of_std_some returns rf nf _ hstd,
        if_pos (Real.sqrt_pos.mpr (by exact_mod_cast hvar))]
    · intro h1
      exact sharpe_zero_of_short returns rf nf (by omega)
  · intro c n rf nf hn
    exact sharpe_zero_of_varQ_zero _ rf nf (varQ_replicate n c (by omega))

/-- Concrete instantiation of claim C4's constant-series guard. -/
theorem c4_sharpe_ratio_formula_and_guard_witness :
    calculate_sharpe_ratio (List.replicate 3 (1/2)) 0 1 = 0 :=
  c4_sharpe_ratio_formula_and_guard.2 (1/2) 3 0 1 (by norm_num)

/-- The Sortino ratio when the downside standard deviation is defined. -/
theorem sortino_of_std_some (l : List ℚ) (rf nf : ℚ) (s : ℝ)
    (h : seriesStd (l.filter (fun r => r < 0)) = some s) :
    calculate_sortino_ratio l rf nf =
      if 0 < s then ((meanQ l : ℝ) - (rf : ℝ)) / (s * Real.sqrt (nf : ℝ)) else 0 := by
  simp only [calculate_sortino_ratio]
  rw [h]

/-- The Sortino ratio is `0` whenever the downside sample variance
vanishes. -/
theorem sortino_zero_of_varQ_zero (l : List ℚ) (rf nf : ℚ)
    (h : varQ (l.filter (fun r => r < 0)) = 0) :
    calculate_sortino_ratio l rf nf = 0 := by
  by_cases hlen : (l.filter (fun r => r < 0)).length < 2
  · simp only [calculate_sortino_ratio]
    rw [seriesStd, if_pos hlen]
  · have hstd : seriesStd (l.filter (fun r => r < 0)) =
        some (Real.sqrt (varQ (l.filter (fun r => r < 0)) : ℝ)) := by
      rw [seriesStd, if_neg hlen]
    rw [sortino_of_std_some l rf nf _ hstd, h]
    simp

/-- The Sortino ratio is `0` when there are fewer than two downside
observations (pandas `std()` is NaN there). -/
theorem sortino_zero_of_short (l : List ℚ) (rf nf : ℚ)
    (h : (l.filter (fun r => r < 0)).length < 2) :
    calculate_sortino_ratio l rf nf = 0 := by
  simp only [calculate_sortino_ratio]
  rw [seriesStd, if_pos h]

/-- Claim C5: the Sortino ratio has the Sharpe numerator (mean of the whole
series minus the risk-free rate) but divides by the standard deviation of the
sub-series of strictly negative returns scaled by
`sqrt(normalization_factor)`, and is `0.0` when there are no downside
returns, a single downside return, or zero downside deviation. -/
theorem c5_sortino_ratio_downside_denominator :
    ∀ (returns : List ℚ) (risk_free_rate normalization_factor : ℚ),
      (2 ≤ (returns.filter (fun r => r < 0)).length →
        0 < varQ (returns.filter (fun r => r < 0)) →
        calculate_sortino_ratio returns risk_free_rate normalization_factor =
          ((meanQ returns : ℝ) - (risk_free_rate : ℝ)) /
            (Real.sqrt (varQ (returns.filter (fun r => r < 0)) : ℝ) *
              Real.sqrt (normalization_factor : ℝ))) ∧
      (returns.filter (fun r => r < 0) = [] →
        calculate_sortino_ratio returns risk_free_rate normalization_factor = 0) ∧
      ((returns.filter (fun r => r < 0)).length = 1 →
        calculate_sortino_ratio returns risk_free_rate normalization_factor = 0) ∧
      (varQ (returns.filter (fun r => r < 0)) = 0 →
        calculate_sortino_ratio returns risk_free_rate normalization_factor = 0) := by
  intro returns rf nf
  refine ⟨?_, ?_, ?_, sortino_zero_of_varQ_zero returns rf nf⟩
  · intro hlen hvar
    have hstd : seriesStd (returns.filter (fun r => r < 0)) =
        some (Real.sqrt (varQ (returns.filter (fun r => r < 0)) : ℝ)) := by
      rw [seriesStd, if_neg (by omega)]
    rw [sortino_of_std_some returns rf nf _ hstd,
      if_pos (Real.sqrt_pos.mpr (by exact_mod_cast hvar))]
  · intro hmt
    exact sortino_zero_of_short returns rf nf (by rw [hmt]; simp)
  · intro h1
    exact sortino_zero_of_short returns rf nf (by omega)

/-- Concrete instantiation of claim C5's no-downside-returns guard. -/
theorem c5_sortino_ratio_downside_denominator_witness :
    calculate_sortino_ratio [1, 2] 0 1 = 0 :=
  (c5_sortino_ratio_downside_denominator [1, 2] 0 1).2.1 (by norm_num [List.filter])

/-- Evaluating `strategy_data["Portfolio"]` through the column model. -/
theorem dfCol_portfolio (df : StrategyData) :
    dfCol df "Portfolio" = ofOpt (.keyError "Portfolio") df.portfolio := by
  rcases df with ⟨n, c, pp, pf, q, pl, sp⟩
  cases pf <;> rfl

/-- Evaluating `strategy_data["Profit / Loss %"]` through the column model. -/
theorem dfCol_profitLoss (df : StrategyData) :
    dfCol df "Profit / Loss %" =
      ofOpt (.keyError "Profit / Loss %") df.profitLoss := by
  rcases df with ⟨n, c, pp, pf, q, pl, sp⟩
  cases pl <;> rfl

/-- Claim C2: the aggregator surfaces structural errors distinctly: a missing
required column raises `KeyError` naming that column (the code-level
realisation of the specification's `SchemaError`), an empty table raises
`IndexError` (the realisation of `EmptyInputError`); each aborts the
computation with an `Except.error` result rather than a summary, and the two
error values are distinct, so the caller can tell them apart. -/
theorem c2_structural_errors_distinct :
    ∀ (rpow : ℚ → ℚ → ℚ) (df : StrategyData),
      (df.portfolio = none →
        calculate_strategy_stats rpow df = .error (.keyError "Portfolio")) ∧
      (df.portfolio = some [] →
        calculate_strategy_stats rpow df = .error .indexError) ∧
      (∀ ys, df.portfolio = some ys → ys ≠ [] → df.profitLoss = none →
        calculate_strategy_stats rpow df = .error (.keyError "Profit / Loss %")) ∧
      (∀ key, PyError.keyError key ≠ PyError.indexError) := by
  intro rpow df
  refine ⟨?_, ?_, ?_, fun key h => PyError.noConfusion h⟩
  · intro hp
    simp only [calculate_strategy_stats, dfCol_portfolio, hp, ofOpt]
    rfl
  · intro hp
    simp only [calculate_strategy_stats, dfCol_portfolio, hp, ofOpt]
    rfl
  · intro ys hp hne hpl
    obtain ⟨y, ys2, rfl⟩ := List.exists_cons_of_ne_nil hne
    obtain ⟨z, hz⟩ := Option.isSome_iff_exists.1 (List.getLast?_isSome.2 (by simp) :
      ((y :: ys2).getLast?).isSome)
    simp only [calculate_strategy_stats, dfCol_portfolio, dfCol_profitLoss, hp, hpl,
      ofOpt, iloc0, ilocLast, hz]
    rfl

/-- Concrete instantiation of claim C2 at a table missing its `Portfolio`
column. -/
theorem c2_structural_errors_distinct_witness :
    calculate_strategy_stats (fun _ _ => 0) exampleMissingPortfolio =
      .error (.keyError "Portfolio") :=
  (c2_structural_errors_distinct (fun _ _ => 0) exampleMissingPortfolio).1 rfl

/-- A successful aggregator run copies the loss sub-series `Minimum` into the
`max_loss` field and its `Maximum` into `min_loss`, exactly as the source's
metrics dictionary does. -/
theorem calculate_strategy_stats_loss_fields
    (rpow : ℚ → ℚ → ℚ) (df : StrategyData) (ys : List ℚ) (s : StrategyStats)
    (hy : df.profitLoss = some ys)
    (hs : calculate_strategy_stats rpow df = .ok s) :
    s.max_loss = (ys.filter (fun y => y < 0)).min? ∧
      s.min_loss = (ys.filter (fun y => y < 0)).max? := by
  cases hp : df.portfolio with
  | none =>
    simp only [calculate_strategy_stats, dfCol_portfolio, hp, ofOpt, Bind.bind,
      Except.bind] at hs
    exact absurd hs (by simp)
  | some pl =>
    simp only [calculate_strategy_stats, dfCol_portfolio, dfCol_profitLoss, hp, hy, ofOpt,
      Bind.bind, Except.bind] at hs
    cases h1 : iloc0 pl with
    | error e => rw [h1] at hs; simp at hs
    | ok start =>
      rw [h1] at hs
      simp only [Except.bind] at hs
      cases h2 : ilocLast pl with
      | error e => rw [h2] at hs; simp at hs
      | ok cur =>
        rw [h2] at hs
        simp only [Except.bind] at hs
        cases h3 : ilocLast ys with
        | error e => rw [h3] at hs; simp at hs
        | ok mom =>
          rw [h3] at hs
          simp only [Except.bind, pure, Except.pure] at hs
          obtain rfl : _ = s := Except.ok.inj hs
          constructor <;> rfl

/-- Claim C7: in every strategy summary produced from a table whose loss
sub-series is non-empty, the field labelled `max_loss` is the minimum (most
negative value) of the loss sub-series and `min_loss` is that sub-series'
maximum — the asymmetric labelling is preserved, not inverted. -/
theorem c7_max_loss_min_loss_labels :
    ∀ (rpow : ℚ → ℚ → ℚ) (df : StrategyData) (ys : List ℚ) (s : StrategyStats),
      df.profitLoss = some ys →
      calculate_strategy_stats rpow df = .ok s →
      ys.filter (fun y => y < 0) ≠ [] →
      (∃ m, s.max_loss = some m ∧ m ∈ ys.filter (fun y => y < 0) ∧
        ∀ x ∈ ys.filter (fun y => y < 0), m ≤ x) ∧
      (∃ M, s.min_loss = some M ∧ M ∈ ys.filter (fun y => y < 0) ∧
        ∀ x ∈ ys.filter (fun y => y < 0), x ≤ M) := by
  intro rpow df ys s hy hs hne
  obtain ⟨hmax, hmin⟩ := calculate_strategy_stats_loss_fields rpow df ys s hy hs
  obtain ⟨m, hm⟩ := min?_isSome hne
  obtain ⟨hm1, hm2⟩ := min?_spec hm
  obtain ⟨M, hM⟩ := max?_isSome hne
  obtain ⟨hM1, hM2⟩ := max?_spec hM
  exact ⟨⟨m, by rw [hmax, hm], hm1, hm2⟩, ⟨M, by rw [hmin, hM], hM1, hM2⟩⟩

/-- Concrete instantiation of claim C7 at a two-row table with loss
sub-series `[-1/5]`. -/
theorem c7_max_loss_min_loss_labels_witness :
    ∃ s, calculate_strategy_stats (fun _ _ => 0) exampleLossTable = .ok s ∧
      (∃ m, s.max_loss = some m ∧
        m ∈ List.filter (fun y => decide (y < 0)) [1/10, -1/5] ∧
        ∀ x ∈ List.filter (fun y => decide (y < 0)) [1/10, -1/5], m ≤ x) ∧
      (∃ M, s.min_loss = some M ∧
        M ∈ List.filter (fun y => decide (y < 0)) [1/10, -1/5] ∧
        ∀ x ∈ List.filter (fun y => decide (y < 0)) [1/10, -1/5], x ≤ M) := by
  have hOk : (calculate_strategy_stats (fun _ _ => 0) exampleLossTable).isOk = true := rfl
  cases hs : calculate_strategy_stats (fun _ _ => 0) exampleLossTable with
  | error e => rw [hs] at hOk; exact absurd hOk (by simp [Except.isOk, Except.toBool])
  | ok s =>
    exact ⟨s, rfl,
      c7_max_loss_min_loss_labels (fun _ _ => 0) exampleLossTable [1/10, -1/5] s rfl hs
        (by norm_num [List.filter])⟩

/-- Claim C1 is violated by the code: when the live price lookup fails with a
network error, `get_coinmarketcap_price` catches it and returns `None`; in
`update_portfolio_current_balance` the expression
`(current_price - purchase_price) / purchase_price` then raises `TypeError`
(`None` minus a float), which the `except (KeyError, IndexError)` handler does
not catch.  For every table with the three checked columns present and
non-empty rows, the lookup failure therefore propagates as an unhandled fault
instead of falling back to the last known price with a warning. -/
theorem c1_network_failure_propagates_typeerror :
    ∀ (df : StrategyData) (cs : List String) (ps : List ℚ),
      df.coin = some cs → cs ≠ [] →
      df.purchasePrice = some ps → ps ≠ [] →
      df.quantity.isSome = true → df.nrows ≠ 0 →
      update_portfolio_current_balance .netError df = .error .typeError := by
  intro df cs ps hc hcne hp hpne hq hn
  obtain ⟨latest, hlast⟩ := Option.isSome_iff_exists.1
    (List.getLast?_isSome.2 hcne : cs.getLast?.isSome)
  obtain ⟨purchase, hplast⟩ := Option.isSome_iff_exists.1
    (List.getLast?_isSome.2 hpne : ps.getLast?.isSome)
  have hguard : (df.coin.isNone || df.purchasePrice.isNone || df.quantity.isNone) = false := by
    rw [hc, hp]
    cases hqv : df.quantity with
    | none => rw [hqv] at hq; simp at hq
    | some q => simp
  rw [update_portfolio_current_balance, if_neg (by rw [hguard]; simp), if_neg hn]
  have hbody : updateBody .netError df = .error .typeError := by
    simp only [updateBody, hc, hp, ofOpt, Bind.bind, Except.bind, ilocLast, hlast, hplast,
      get_coinmarketcap_price]
  rw [hbody]

/-- Concrete run of claim C1's failing input: a well-formed two-row table and
a network failure of the price lookup; the call raises `TypeError`. -/
theorem c1_network_failure_propagates_typeerror_witness :
    update_portfolio_current_balance .netError exampleLossTable = .error .typeError :=
  c1_network_failure_propagates_typeerror exampleLossTable ["BTC", "ETH"] [1, 2]
    rfl (by simp) rfl (by simp) rfl (by simp [exampleLossTable])

/-- When the `try` body of `update_portfolio_current_balance` succeeds, the
table it returns — which, through the in-place `.loc` writes, is also the
post-call state of the caller's `strategy_data` — is the input with the last
entries of `Sell price`, `Profit / Loss %` and `Portfolio` overwritten. -/
theorem updateBody_ok (net : NetResult) (df df3 : StrategyData)
    (h : updateBody net df = .ok df3) :
    ∃ p r b, df3 = { df with
      sellPrice := setLastQ df.sellPrice p
      profitLoss := setLastQ df.profitLoss r
      portfolio := setLastQ df.portfolio b } := by
  cases hc : df.coin with
  | none =>
    simp only [updateBody, hc, ofOpt, Bind.bind, Except.bind] at h
    exact absurd h (by simp)
  | some cs =>
    simp only [updateBody, hc, ofOpt, Bind.bind, Except.bind] at h
    cases h1 : ilocLast cs with
    | error e => rw [h1] at h; simp at h
    | ok latest =>
      rw [h1] at h
      simp only [Except.bind] at h
      cases hg : get_coinmarketcap_price latest net with
      | error e => rw [hg] at h; simp at h
      | ok po =>
        rw [hg] at h
        simp only [Except.bind] at h
        cases hpp : df.purchasePrice with
        | none =>
          simp only [hpp, ofOpt] at h
          exact absurd h (by simp)
        | some pps =>
          simp only [hpp, ofOpt] at h
          cases h2 : ilocLast pps with
          | error e => rw [h2] at h; simp at h
          | ok purchase =>
            rw [h2] at h
            simp only [Except.bind] at h
            cases po with
            | none =>
              simp only [ofOpt] at h
              exact absurd h (by simp)
            | some p =>
              simp only [ofOpt, Except.bind] at h
              cases hq : df.quantity with
              | none =>
                simp only [hq, ofOpt] at h
                exact absurd h (by simp)
              | some qs =>
                simp only [hq, ofOpt] at h
                cases h3 : ilocLast qs with
                | error e => rw [h3] at h; simp at h
                | ok qv =>
                  rw [h3] at h
                  simp only [Except.bind, pure, Except.pure] at h
                  exact ⟨p, (p - purchase) / purchase, qv * p,
                    (Except.ok.inj h).symm⟩

/-- Claim C8 as refuted: the portfolio-balance update writes through the
caller's table object.  On the success path the post-call state of the input
differs from its pre-call state (here the last `Sell price`,
`Profit / Loss %` and `Portfolio` cells change), so a core call does mutate
its input in place. -/
theorem c8_no_mutation_counterexample :
    update_portfolio_current_balance (.price 3) exampleLossTable =
      .ok ({ nrows := 2, coin := some ["BTC", "ETH"], purchasePrice := some [1, 2],
             portfolio := some [100, 3], quantity := some [1, 1],
             profitLoss := some [1/10, 1/2], sellPrice := some [1, 3] }, []) ∧
      ({ nrows := 2, coin := some ["BTC", "ETH"], purchasePrice := some [1, 2],
         portfolio := some [100, 3], quantity := some [1, 1],
         profitLoss := some [1/10, 1/2], sellPrice := some [1, 3] } : StrategyData) ≠
        exampleLossTable := by
  constructor
  · norm_num [update_portfolio_current_balance, updateBody, exampleLossTable,
      get_coinmarketcap_price, ofOpt, ilocLast, setLastQ, Bind.bind, Except.bind, pure,
      Except.pure, List.getLast?, List.set]
  · norm_num [exampleLossTable, StrategyData.mk.injEq]

/-- Claim C8 as amended: `exclude_outliers` and `calculate_strategy_stats`
build fresh values from their input (boolean-mask row selection and a fresh
summary record; nothing is written back), but
`update_portfolio_current_balance` writes the last row of its input in place.
Whenever it returns a table, that table — also the post-call state of the
caller's object — agrees with the input on the row count, on the `Coin`,
`Purchase price` and `Quantity` columns, and on every entry of `Portfolio`,
`Profit / Loss %` and `Sell price` except possibly the last. -/
theorem c8_update_rewrites_last_row_in_place :
    ∀ (net : NetResult) (df df2 : StrategyData) (w : List String),
      update_portfolio_current_balance net df = .ok (df2, w) →
      df2.nrows = df.nrows ∧ df2.coin = df.coin ∧
      df2.purchasePrice = df.purchasePrice ∧ df2.quantity = df.quantity ∧
      (∀ l, df.portfolio = some l → ∃ l2, df2.portfolio = some l2 ∧
        l2.length = l.length ∧ ∀ i, i + 1 < l.length → l2[i]? = l[i]?) ∧
      (∀ l, df.profitLoss = some l → ∃ l2, df2.profitLoss = some l2 ∧
        l2.length = l.length ∧ ∀ i, i + 1 < l.length → l2[i]? = l[i]?) ∧
      (∀ l, df.sellPrice = some l → ∃ l2, df2.sellPrice = some l2 ∧
        l2.length = l.length ∧ ∀ i, i + 1 < l.length → l2[i]? = l[i]?) := by
  intro net df df2 w h
  rw [update_portfolio_current_balance] at h
  split_ifs at h with hguard hempty
  · obtain ⟨rfl, rfl⟩ : df = df2 ∧ _ = w := by
      have := Except.ok.inj h
      exact ⟨congrArg Prod.fst this, congrArg Prod.snd this⟩
    refine ⟨rfl, rfl, rfl, rfl, ?_, ?_, ?_⟩ <;>
      exact fun l hl => ⟨l, hl, rfl, fun i _ => rfl⟩
  · obtain ⟨rfl, rfl⟩ : df = df2 ∧ _ = w := by
      have := Except.ok.inj h
      exact ⟨congrArg Prod.fst this, congrArg Prod.snd this⟩
    refine ⟨rfl, rfl, rfl, rfl, ?_, ?_, ?_⟩ <;>
      exact fun l hl => ⟨l, hl, rfl, fun i _ => rfl⟩
  · cases hb : updateBody net df with
    | ok df3 =>
      rw [hb] at h
      obtain ⟨rfl, rfl⟩ : df3 = df2 ∧ _ = w := by
        have := Except.ok.inj h
        exact ⟨congrArg Prod.fst this, congrArg Prod.snd this⟩
      obtain ⟨p, r, b, rfl⟩ := updateBody_ok net df _ hb
      refine ⟨rfl, rfl, rfl, rfl, ?_, ?_, ?_⟩
      · intro l hl
        refine ⟨l.set (l.length - 1) b, by simp [hl, setLastQ], by simp, ?_⟩
        intro i hi
        exact List.getElem?_set_ne (by omega)
      · intro l hl
        refine ⟨l.set (l.length - 1) r, by simp [hl, setLastQ], by simp, ?_⟩
        intro i hi
        exact List.getElem?_set_ne (by omega)
      · intro l hl
        refine ⟨l.set (l.length - 1) p, by simp [hl, setLastQ], by simp, ?_⟩
        intro i hi
        exact List.getElem?_set_ne (by omega)
    | error e =>
      rw [hb] at h
      cases e with
      | keyError k =>
        obtain ⟨rfl, rfl⟩ : df = df2 ∧ _ = w := by
          have := Except.ok.inj h
          exact ⟨congrArg Prod.fst this, congrArg Prod.snd this⟩
        refine ⟨rfl, rfl, rfl, rfl, ?_, ?_, ?_⟩ <;>
          exact fun l hl => ⟨l, hl, rfl, fun i _ => rfl⟩
      | indexError =>
        obtain ⟨rfl, rfl⟩ : df = df2 ∧ _ = w := by
          have := Except.ok.inj h
          exact ⟨congrArg Prod.fst this, congrArg Prod.snd this⟩
        refine ⟨rfl, rfl, rfl, rfl, ?_, ?_, ?_⟩ <;>
          exact fun l hl => ⟨l, hl, rfl, fun i _ => rfl⟩
      | typeError => exact absurd h (by simp)
      | valueError m => exact absurd h (by simp)
      | zeroDivisionError => exact absurd h (by simp)

/-- Concrete instantiation of the amended claim C8 at a successful update. -/
theorem c8_update_rewrites_last_row_in_place_witness :
    ∃ df2 w, update_portfolio_current_balance (.price 3) exampleLossTable = .ok (df2, w) ∧
      df2.nrows = exampleLossTable.nrows ∧ df2.coin = exampleLossTable.coin := by
  have hOk : (update_portfolio_current_balance (.price 3) exampleLossTable).isOk = true := rfl
  cases hs : update_portfolio_current_balance (.price 3) exampleLossTable with
  | error e => rw [hs] at hOk; exact absurd hOk (by simp [Except.isOk, Except.toBool])
  | ok pr =>
    obtain ⟨df2, w⟩ := pr
    have h := c8_update_rewrites_last_row_in_place (.price 3) exampleLossTable df2 w hs
    exact ⟨df2, w, rfl, h.1, h.2.1⟩

/-- Claim C9: every `(base, other, value)` entry of the negative-correlation
structure has `base ≠ other` and `value < 0`: self-pairs and non-negative
pairs are never included. -/
theorem c9_negative_correlations_invariant :
    ∀ (m : CorrMatrix) (base : String) (inner : List (String × ℚ))
      (other : String) (v : ℚ),
      (base, inner) ∈ find_negative_correlation_coins m →
      (other, v) ∈ inner →
      base ≠ other ∧ v < 0 := by
  intro m base inner other v hmem hip
  obtain ⟨b, hb, heq⟩ := List.mem_map.1 hmem
  rw [Prod.ext_iff] at heq
  obtain ⟨hb1, hb2⟩ := heq
  dsimp only at hb1 hb2
  subst hb1
  rw [← hb2] at hip
  obtain ⟨c, hc, hfc⟩ := List.mem_filterMap.1 hip
  by_cases hcond : b ≠ c ∧ m.entry b c < 0
  · rw [if_pos hcond] at hfc
    obtain ⟨rfl, rfl⟩ : c = other ∧ m.entry b c = v := by
      have := Option.some.inj hfc
      exact ⟨congrArg Prod.fst this, congrArg Prod.snd this⟩
    exact ⟨hcond.1, hcond.2⟩
  · rw [if_neg hcond] at hfc
    exact absurd hfc (by simp)

/-- Concrete instantiation of claim C9 at a matrix with one negative pair. -/
theorem c9_negative_correlations_invariant_witness :
    ("A", [("B", (-1 : ℚ))]) ∈ find_negative_correlation_coins exampleCorrMatrix ∧
      ("A" ≠ "B" ∧ (-1 : ℚ) < 0) :=
  ⟨by decide,
    c9_negative_correlations_invariant exampleCorrMatrix "A" [("B", -1)] "B" (-1)
      (by decide) (by decide)⟩

/-- Claim C10: the negative-correlation structure has exactly one outer key
per row of the input matrix, in order; a base asset with no strictly negative
correlation still appears, mapped to the empty inner mapping. -/
theorem c10_every_base_asset_is_a_key :
    ∀ (m : CorrMatrix),
      (find_negative_correlation_coins m).map Prod.fst = m.index ∧
      ∀ b, b ∈ m.index → (∀ c ∈ m.columns, b ≠ c → 0 ≤ m.entry b c) →
        (b, ([] : List (String × ℚ))) ∈ find_negative_correlation_coins m := by
  intro m
  constructor
  · rw [find_negative_correlation_coins, List.map_map]
    exact List.map_id _
  · intro b hb hpos
    refine List.mem_map.2 ⟨b, hb, ?_⟩
    have hnil : m.columns.filterMap (fun coin =>
        if b ≠ coin ∧ m.entry b coin < 0 then some (coin, m.entry b coin) else none) = [] := by
      rw [List.filterMap_eq_nil_iff]
      intro c hc
      rw [if_neg]
      push_neg
      intro hbc
      exact hpos c hc hbc
    simp only [hnil]

/-- Concrete instantiation of claim C10 at a matrix with no negative entry:
the base asset is still a key, with an empty inner mapping. -/
theorem c10_every_base_asset_is_a_key_witness :
    ("A", ([] : List (String × ℚ))) ∈ find_negative_correlation_coins exampleNoNegMatrix :=
  (c10_every_base_asset_is_a_key exampleNoNegMatrix).2 "A" (by decide) (by decide)
